import Mathlib

/-
  Verification of the `white_silence_black_ink` static-site build script
  (src/build.js) against its natural-language specification.

  The script is embedded shallowly:
  * JSON values (the results of `JSON.parse`) become the inductive `JVal`;
    strings are `List Char` throughout.
  * The filesystem inputs the script reads are a record `FS`; a file that the
    script parses as JSON is represented by its parse outcome
    (`Except (List Char) JVal`, the error holding the parse-error message),
    since `JSON.parse` itself is a trusted JS primitive.
  * JavaScript exceptions (TypeError from property access on null/undefined,
    or calling a non-function) are an `Except JSError` layer.
  * `Array.prototype.sort` is required by ECMAScript to be stable; for a
    consistent comparator every stable sort produces the same list, so it is
    embedded as a stable insertion sort threaded through `Except` (the
    comparator can throw).
  * `String.prototype.localeCompare` is modelled as code-point lexicographic
    comparison, the behaviour the spec ascribes to it on date strings.
  * `String.prototype.replace` with a string replacement value is embedded
    with its full ECMAScript semantics: it replaces only the first occurrence
    and interprets the replacement patterns $$, $&, $\x60 and the
    dollar-apostrophe pattern in the replacement string (GetSubstitution).
  * `JSON.stringify(v, null, 2)` is embedded as `jsonStringify` by mutual
    structural recursion over values, array elements and object fields.
  * Process exit: `process.exit(1)` and an uncaught exception both terminate
    the node process with a non-zero exit code (an uncaught exception exits
    with code 1); `exitCode` maps a `BuildOutcome` to that code.
  * Console output is modelled where the specification refers to it: the
    per-file parse warnings of `readPosts` are returned alongside its result.
    Timestamp-dependent log lines are not modelled.
-/

namespace WSBI

/-- JSON values, as produced by a successful `JSON.parse`. Object fields keep
their insertion order; JS numbers are modelled as integers (no claim touches
non-integral numbers). -/
inductive JVal where
  | null
  | bool (b : Bool)
  | num (n : Int)
  | str (s : List Char)
  | arr (elems : List JVal)
  | obj (fields : List (List Char × JVal))

/-- JavaScript runtime errors thrown by the embedded operations. Every error
the script can raise is a TypeError. -/
inductive JSError where
  | typeError (msg : List Char)
deriving DecidableEq

/-- Chars of a string literal. -/
def s2l (s : String) : List Char := s.data

/-- JS truthiness of a JSON value. -/
def truthy : JVal → Bool
  | .null => false
  | .bool b => b
  | .num n => n != 0
  | .str s => !s.isEmpty
  | .arr _ => true
  | .obj _ => true

/-- First-match lookup in an object field list (JS objects cannot hold
duplicate keys, so first match is the match). -/
def lookupKV : List (List Char × JVal) → List Char → Option JVal
  | [], _ => none
  | (k₁, v) :: rest, k => if k₁ = k then some v else lookupKV rest k

/-- Pure property read: field of an object, `none` (undefined) otherwise. -/
def pureProp (v : JVal) (k : List Char) : Option JVal :=
  match v with
  | .obj fs => lookupKV fs k
  | _ => none

/-- JS property access `v.k`: throws a TypeError on null, yields the field or
undefined (`none`) otherwise (property access on a primitive is legal and
yields undefined). -/
def jsGetProp (v : JVal) (k : List Char) : Except JSError (Option JVal) :=
  match v with
  | .null => .error (.typeError (s2l "Cannot read properties of null"))
  | .obj fs => .ok (lookupKV fs k)
  | _ => .ok none

/-- The idiom `x || then-empty-string` of build.js line 64: a falsy value is
replaced by the empty string. `none` stands for undefined. -/
def jsOrEmpty (o : Option JVal) : JVal :=
  match o with
  | some v => if truthy v then v else .str []
  | none => .str []

mutual

/-- ToString coercion of a JS value (arrays join their elements with commas,
null elements becoming empty; objects render as object-Object). -/
def jsToString : JVal → List Char
  | .null => s2l "null"
  | .bool true => s2l "true"
  | .bool false => s2l "false"
  | .num n => s2l (toString n)
  | .str s => s
  | .obj _ => s2l "[object Object]"
  | .arr xs => jsArrJoin xs

/-- Array.prototype.toString: the elements joined with commas, a null element
contributing the empty string. -/
def jsArrJoin : List JVal → List Char
  | [] => []
  | [JVal.null] => []
  | [x] => jsToString x
  | JVal.null :: y :: rest => ',' :: jsArrJoin (y :: rest)
  | x :: y :: rest => jsToString x ++ ',' :: jsArrJoin (y :: rest)

end

/-- Lower-case hex digit. -/
def hexDigit (n : Nat) : Char := if n < 10 then Char.ofNat (48 + n) else Char.ofNat (87 + n)

/-- JSON string escaping of one character. -/
def escChar (c : Char) : List Char :=
  if c = '"' then ['\\', '"']
  else if c = '\\' then ['\\', '\\']
  else if c = '\n' then ['\\', 'n']
  else if c = '\r' then ['\\', 'r']
  else if c = '\t' then ['\\', 't']
  else if c = Char.ofNat 8 then ['\\', 'b']
  else if c = Char.ofNat 12 then ['\\', 'f']
  else if c.toNat < 32 then
    ['\\', 'u', '0', '0', hexDigit (c.toNat / 16), hexDigit (c.toNat % 16)]
  else [c]

/-- JSON string quoting. -/
def jsonQuote (s : List Char) : List Char :=
  '"' :: List.foldr (fun c acc => escChar c ++ acc) ['"'] s

/-- Opening brace character. -/
def lbrace : Char := Char.ofNat 123

/-- Closing brace character. -/
def rbrace : Char := Char.ofNat 125

/-- Indentation of `n` spaces. -/
def indentSp (n : Nat) : List Char := List.replicate n ' '

mutual

/-- `JSON.stringify(v, null, 2)` rendered at indentation level `ind`. -/
def stringifyV (ind : Nat) : JVal → List Char
  | .null => s2l "null"
  | .bool true => s2l "true"
  | .bool false => s2l "false"
  | .num n => s2l (toString n)
  | .str s => jsonQuote s
  | .arr [] => ['[', ']']
  | .arr (x :: xs) =>
      ['[', '\n'] ++ stringifyItems (ind+2) (x :: xs) ++ '\n' :: indentSp ind ++ [']']
  | .obj [] => [lbrace, rbrace]
  | .obj (p :: fs) =>
      [lbrace, '\n'] ++ stringifyFields (ind+2) (p :: fs) ++ '\n' :: indentSp ind ++ [rbrace]

/-- Array items of `JSON.stringify(_, null, 2)`, one per line, comma-separated,
each indented by `ind`. -/
def stringifyItems (ind : Nat) : List JVal → List Char
  | [] => []
  | [x] => indentSp ind ++ stringifyV ind x
  | x :: y :: rest =>
      indentSp ind ++ stringifyV ind x ++ ',' :: '\n' :: stringifyItems ind (y :: rest)

/-- Object fields of `JSON.stringify(_, null, 2)`, one per line,
comma-separated, each indented by `ind`. -/
def stringifyFields (ind : Nat) : List (List Char × JVal) → List Char
  | [] => []
  | [(k, v)] => indentSp ind ++ jsonQuote k ++ ':' :: ' ' :: stringifyV ind v
  | (k, v) :: q :: rest =>
      indentSp ind ++ jsonQuote k ++ ':' :: ' ' :: stringifyV ind v ++
        ',' :: '\n' :: stringifyFields ind (q :: rest)

end

/-- `JSON.stringify(v, null, 2)`. -/
def jsonStringify (v : JVal) : List Char := stringifyV 0 v

/-- The dollar character. -/
def dollarC : Char := '$'

/-- The ampersand character. -/
def ampC : Char := '&'

/-- The backtick character. -/
def backC : Char := Char.ofNat 96

/-- The apostrophe character. -/
def aposC : Char := Char.ofNat 39

/-- ECMAScript GetSubstitution for a string replacement value: interprets
$$ (a dollar), $& (the matched text), dollar-backtick (the portion before the
match) and dollar-apostrophe (the portion after the match); any other
dollar sequence is literal. -/
def getSubst (matched before after : List Char) : List Char → List Char
  | [] => []
  | [c] => [c]
  | c :: d :: rest2 =>
    if c = dollarC then
      if d = dollarC then dollarC :: getSubst matched before after rest2
      else if d = ampC then matched ++ getSubst matched before after rest2
      else if d = backC then before ++ getSubst matched before after rest2
      else if d = aposC then after ++ getSubst matched before after rest2
      else c :: getSubst matched before after (d :: rest2)
    else c :: getSubst matched before after (d :: rest2)

/-- Scanning loop of `String.prototype.replace` with a string pattern and a
string replacement: `pre` is the already-scanned prefix of the subject. -/
def replFirstFrom (pat rep : List Char) : List Char → List Char → List Char
  | pre, [] =>
    if List.isPrefixOf pat [] then
      pre ++ getSubst pat pre (List.drop pat.length []) rep ++ List.drop pat.length []
    else pre
  | pre, c :: rest =>
    if List.isPrefixOf pat (c :: rest) then
      pre ++ getSubst pat pre (List.drop pat.length (c :: rest)) rep ++
        List.drop pat.length (c :: rest)
    else replFirstFrom pat rep (pre ++ [c]) rest

/-- `s.replace(pat, rep)` for string arguments: replaces only the first
occurrence of `pat`, processing `rep` through GetSubstitution; returns `s`
unchanged when `pat` does not occur. -/
def replFirst (s pat rep : List Char) : List Char := replFirstFrom pat rep [] s

/-- No occurrence of `pat` starts inside `pre` in the string
`pre ++ pat ++ suf` (so the occurrence after `pre` is the first one). -/
def noEarlyOccurB (pre pat suf : List Char) : Bool :=
  (List.range pre.length).all
    (fun i => !(List.isPrefixOf pat (List.drop i (pre ++ pat ++ suf))))

/-- The pattern occurs nowhere in the string. -/
def noOccurB (pat s : List Char) : Bool :=
  (List.range (s.length + 1)).all
    (fun i => !(List.isPrefixOf pat (List.drop i s)))

/-- The string holds no dollar character (so GetSubstitution is the
identity on it). -/
def noDollar (s : List Char) : Bool := s.all (fun c => c != dollarC)

/-- Code-point lexicographic three-way comparison of strings, the embedding
of `localeCompare` (build.js line 64) on the date strings the script sorts. -/
def lcmp : List Char → List Char → Ordering
  | [], [] => .eq
  | [], _ :: _ => .lt
  | _ :: _, [] => .gt
  | a :: as, b :: bs =>
    if a.toNat < b.toNat then .lt
    else if b.toNat < a.toNat then .gt
    else lcmp as bs

/-- The integer sign `localeCompare` returns. -/
def lcmpInt (s t : List Char) : Int :=
  match lcmp s t with
  | .lt => -1
  | .eq => 0
  | .gt => 1

/-- The `date` key. -/
def dateKey : List Char := s2l "date"

/-- The `contact_email` key. -/
def emailKey : List Char := s2l "contact_email"

/-- The `body` key. -/
def bodyKey : List Char := s2l "body"

/-- The `en` key. -/
def enKey : List Char := s2l "en"

/-- The `es` key. -/
def esKey : List Char := s2l "es"

/-- The sort comparator of build.js line 64,
`(a, b) => (b.date || '').localeCompare(a.date || '')`, with JS evaluation
order: the receiver `b.date || ''` is evaluated first (throwing if `b` is
null); the method lookup throws if the receiver is not a string; only then is
the argument `a.date || ''` evaluated (throwing if `a` is null) and coerced
to a string. -/
def jsComparator (a b : JVal) : Except JSError Int :=
  match jsGetProp b dateKey with
  | .error e => .error e
  | .ok db =>
    match jsOrEmpty db with
    | .str sb =>
      match jsGetProp a dateKey with
      | .error e => .error e
      | .ok da => .ok (lcmpInt sb (jsToString (jsOrEmpty da)))
    | _ => .error (.typeError (s2l "localeCompare is not a function"))

/-- The receiver string the comparator uses for a value: its `date` field,
with a falsy or missing date giving the empty string (total companion of the
throwing access; `jsToString` covers the coerced argument position). -/
def dkey (v : JVal) : List Char :=
  match jsOrEmpty (pureProp v dateKey) with
  | .str s => s
  | w => jsToString w

/-- A parsed post on which the comparator cannot throw in either position:
not null, and its date key evaluates to a string (missing and falsy dates
give the empty string, so any object whose date is a string or absent
qualifies). -/
def goodPost (v : JVal) : Bool :=
  (match v with
   | JVal.null => false
   | _ => true) &&
  (match jsOrEmpty (pureProp v dateKey) with
   | .str _ => true
   | _ => false)

/-- The pure comparator value on posts where no throw happens: descending
comparison of the date keys. -/
def gcmp (a b : JVal) : Int := lcmpInt (dkey b) (dkey a)

/-- Stable insertion step in the `Except` monad: `x` (arriving later in the
original order) passes over `y` exactly when the comparator orders it
strictly or equally before, matching a stable ascending sort by the
comparator sign. -/
def insertE {α : Type} (cmp : α → α → Except JSError Int) (x : α) :
    List α → Except JSError (List α)
  | [] => .ok [x]
  | y :: ys =>
    match cmp x y with
    | .error e => .error e
    | .ok c =>
      if c ≤ 0 then .ok (x :: y :: ys)
      else
        match insertE cmp x ys with
        | .error e => .error e
        | .ok r => .ok (y :: r)

/-- Stable sort in the `Except` monad: the embedding of
`Array.prototype.sort(comparator)` (ECMAScript requires a stable sort, and
for a consistent comparator every stable sort agrees). An exception thrown
by the comparator aborts the sort. -/
def sortE {α : Type} (cmp : α → α → Except JSError Int) :
    List α → Except JSError (List α)
  | [] => .ok []
  | x :: xs =>
    match sortE cmp xs with
    | .error e => .error e
    | .ok s => insertE cmp x s

/-- Pure stable insertion, mirroring `insertE` when the comparator is total. -/
def insertP {α : Type} (g : α → α → Int) (x : α) : List α → List α
  | [] => [x]
  | y :: ys => if g x y ≤ 0 then x :: y :: ys else y :: insertP g x ys

/-- Pure stable insertion sort, mirroring `sortE` when the comparator is
total. -/
def sortP {α : Type} (g : α → α → Int) : List α → List α
  | [] => []
  | x :: xs => insertP g x (sortP g xs)

/-- The filesystem inputs build.js reads, each JSON input represented by its
parse outcome (`Except` error = the parse-error message). `posts` is the
`content/posts` directory: `none` when the directory does not exist,
otherwise the directory listing as (file name, parse outcome) pairs in
`readdirSync` order. `assets` is the `assets/` subtree flattened to
(relative path, bytes) pairs. -/
structure FS where
  posts : Option (List (List Char × Except (List Char) JVal))
  unlinkedJson : Option (Except (List Char) JVal)
  aboutJson : Option (Except (List Char) JVal)
  siteJson : Option (Except (List Char) JVal)
  originJson : Option (Except (List Char) JVal)
  entryTpl : Option (List Char)
  rippleTpl : Option (List Char)
  cleanTpl : Option (List Char)
  blogTpl : Option (List Char)
  assets : Option (List (List Char × List Char))
  cname : Option (List Char)

/-- `readJSON(path, fallback)` of build.js lines 45-49: the parsed content,
or the fallback when the file is absent or fails to parse; a parse error is
swallowed with no warning. -/
def readJSON (file : Option (Except (List Char) JVal)) (fallback : JVal) : JVal :=
  match file with
  | none => fallback
  | some (.error _) => fallback
  | some (.ok v) => v

/-- The `.json` extension. -/
def jsonExt : List Char := s2l ".json"

/-- The ok branch of a parse outcome. -/
def okOpt {ε α : Type} : Except ε α → Option α
  | .ok a => some a
  | .error _ => none

/-- The `.json`-named entries of the posts directory, in listing order. -/
def jsonFiles (fsys : FS) : List (List Char × Except (List Char) JVal) :=
  (fsys.posts.getD []).filter (fun f => List.isSuffixOf jsonExt f.1)

/-- The successfully parsed posts, in listing order (build.js lines 57-63:
a file that fails to parse is skipped). -/
def parsedPosts (fsys : FS) : List JVal :=
  (jsonFiles fsys).filterMap (fun f => okOpt f.2)

/-- The console.warn prefix of build.js line 61. -/
def warnGlyph : List Char := s2l "  ⚠  "

/-- The warnings `readPosts` prints, one per malformed `.json` file, naming
the file and the parse-error message (build.js line 61). -/
def postWarnings (fsys : FS) : List (List Char) :=
  (jsonFiles fsys).filterMap (fun f =>
    match f.2 with
    | .error e => some (warnGlyph ++ f.1 ++ s2l ": " ++ e)
    | .ok _ => none)

/-- `readPosts()` of build.js lines 53-66: empty when the posts directory is
absent; otherwise parses each `.json` file, warning on and skipping parse
failures, then sorts with the date comparator (which can throw). The second
component is the warnings printed. -/
def readPosts (fsys : FS) : Except JSError (List JVal) × List (List Char) :=
  match fsys.posts with
  | none => (.ok [], [])
  | some _ => (sortE jsComparator (parsedPosts fsys), postWarnings fsys)

/-- The posts placeholder token. -/
def tokPosts : List Char := s2l "/*__POSTS_JSON__*/"

/-- The unlinked-comments placeholder token. -/
def tokUnlinked : List Char := s2l "/*__UNLINKED_JSON__*/"

/-- The about placeholder token. -/
def tokAbout : List Char := s2l "/*__ABOUT_JSON__*/"

/-- The contact-email placeholder token. -/
def tokEmail : List Char := s2l "/*__CONTACT_EMAIL__*/"

/-- The origin placeholder token. -/
def originTok : List Char := s2l "<!-- __ORIGIN_HTML__ -->"

/-- The default about object `{en:'', es:''}` of build.js line 71. -/
def aboutDefault : JVal := JVal.obj [(enKey, JVal.str []), (esKey, JVal.str [])]

/-- `site.contact_email || ''` of build.js line 80: throws when `site` parsed
to JSON null, yields the (string-coerced) field when truthy, the empty string
otherwise. -/
def contactEmailE (site : JVal) : Except JSError (List Char) :=
  match jsGetProp site emailKey with
  | .error e => .error e
  | .ok o =>
    .ok (match o with
         | some v => if truthy v then jsToString v else []
         | none => [])

/-- `injectData(html)` of build.js lines 68-81: loads the posts (whose sort
can throw), the unlinked list, the about object and the site config with
their fallbacks, and replaces the four placeholder tokens in sequence. The
second component is the warnings printed. The contact-email access, which in
JS happens after the three pure replace calls, is hoisted: it is pure and no
replace result is observable when it throws. -/
def injectData (fsys : FS) (html : List Char) :
    Except JSError (List Char) × List (List Char) :=
  match readPosts fsys with
  | (.error e, w) => (.error e, w)
  | (.ok posts, w) =>
    let unlinked := readJSON fsys.unlinkedJson (JVal.arr [])
    let about := readJSON fsys.aboutJson aboutDefault
    let site := readJSON fsys.siteJson (JVal.obj [])
    match contactEmailE site with
    | .error e => (.error e, w)
    | .ok email =>
      (.ok (replFirst
              (replFirst
                (replFirst
                  (replFirst html tokPosts (jsonStringify (JVal.arr posts)))
                  tokUnlinked (jsonStringify unlinked))
                tokAbout (jsonStringify about))
              tokEmail email), w)

/-- Template-literal interpolation of a property-access result: undefined
renders as the word undefined, anything else by ToString. -/
def interpVal (o : Option JVal) : List Char :=
  match o with
  | none => s2l "undefined"
  | some v => jsToString v

/-- The fixed two-column fragment of build.js lines 86-94 with the English
and Spanish bodies interpolated. -/
def originFragment (en es : List Char) : List Char :=
  s2l "            <div class=\"column english\">\n                <div class=\"lang-label\">English</div>\n                " ++
  en ++
  s2l "\n            </div>\n\n            <div class=\"column spanish\">\n                <div class=\"lang-label\">Español</div>\n                " ++
  es ++
  s2l "\n            </div>"

/-- `buildOriginHTML()` of build.js lines 83-95: null (`none`) when
`origin.json` is absent, malformed, or parses to a falsy value; otherwise
renders the fragment, where `origin.body.en` throws a TypeError if the
`body` member is undefined or null. -/
def buildOriginHTML (fsys : FS) : Except JSError (Option (List Char)) :=
  let origin := readJSON fsys.originJson JVal.null
  if truthy origin then
    match jsGetProp origin bodyKey with
    | .error e => .error e
    | .ok none => .error (.typeError (s2l "Cannot read properties of undefined"))
    | .ok (some b) =>
      match jsGetProp b enKey with
      | .error e => .error e
      | .ok enOpt =>
        match jsGetProp b esKey with
        | .error e => .error e
        | .ok esOpt => .ok (some (originFragment (interpVal enOpt) (interpVal esOpt)))
  else .ok none

/-- `injectOrigin(html, originHTML)` of build.js lines 97-100: html unchanged
when `originHTML` is falsy (null or empty), otherwise the first occurrence of
the origin token replaced. -/
def injectOrigin (html : List Char) (originHTML : Option (List Char)) : List Char :=
  match originHTML with
  | none => html
  | some s => if s.isEmpty then html else replFirst html originTok s

/-- The `dist/` output tree: the files build.js can write, `none` meaning the
file was not produced. -/
structure Dist where
  indexHtml : Option (List Char)
  rippleHtml : Option (List Char)
  cleanHtml : Option (List Char)
  blogHtml : Option (List Char)
  assets : Option (List (List Char × List Char))
  cname : Option (List Char)
deriving DecidableEq

/-- The freshly cleaned output directory. -/
def emptyDist : Dist := ⟨none, none, none, none, none, none⟩

/-- How one run of the script ends: normal completion, an explicit
`process.exit`, or an uncaught exception. In each case the `dist` written so
far is recorded. -/
inductive BuildOutcome where
  | completed (dist : Dist)
  | exited (code : Nat) (dist : Dist)
  | threw (err : JSError) (dist : Dist)
deriving DecidableEq

/-- The output tree a run left behind. -/
def distOf : BuildOutcome → Dist
  | .completed d => d
  | .exited _ d => d
  | .threw _ d => d

/-- The process exit code of a run: 0 on completion, the explicit code on
`process.exit`, and 1 for an uncaught exception (node's exit code for an
unhandled error). -/
def exitCode : BuildOutcome → Nat
  | .completed _ => 0
  | .exited c _ => c
  | .threw _ _ => 1

/-- Build.js lines 128-138: the two origin-consuming pages, each written when
its template exists, with the origin fragment injected. -/
def originPagesD (fsys : FS) (originHTML : Option (List Char)) (d : Dist) : Dist :=
  let d2 : Dist :=
    match fsys.rippleTpl with
    | some t => { d with rippleHtml := some (injectOrigin t originHTML) }
    | none => d
  match fsys.cleanTpl with
  | some t => { d2 with cleanHtml := some (injectOrigin t originHTML) }
  | none => d2

/-- Build.js lines 151-163: copy the assets tree and the CNAME file into the
output when they exist. -/
def addStaticD (fsys : FS) (d : Dist) : Dist :=
  let d4 : Dist :=
    match fsys.assets with
    | some a => { d with assets := some a }
    | none => d
  match fsys.cname with
  | some c => { d4 with cname := some c }
  | none => d4

/-- `build()` of build.js lines 104-166, started with the previous output
tree `dist0` on disk. It first cleans the output directory (so `dist0` is
discarded), builds the origin fragment (which can throw), requires the entry
template (exiting with code 1 if absent), writes the two origin pages and
the blog page when their templates exist, and copies assets and CNAME. -/
def build (fsys : FS) (dist0 : Dist) : BuildOutcome :=
  let d0 := emptyDist
  match buildOriginHTML fsys with
  | .error e => .threw e d0
  | .ok originHTML =>
    match fsys.entryTpl with
    | none => .exited 1 d0
    | some entry =>
      let d3 := originPagesD fsys originHTML { d0 with indexHtml := some entry }
      match fsys.blogTpl with
      | some t =>
        match (injectData fsys t).1 with
        | .error e => .threw e d3
        | .ok html => .completed (addStaticD fsys { d3 with blogHtml := some html })
      | none => .completed (addStaticD fsys d3)

/-! Lemmas about the lexicographic comparison. -/

theorem lcmp_swap (s t : List Char) : lcmp t s = (lcmp s t).swap := by
  induction s generalizing t with
  | nil => cases t <;> rfl
  | cons a as ih =>
    cases t with
    | nil => rfl
    | cons b bs =>
      simp only [lcmp]
      rcases Nat.lt_trichotomy a.toNat b.toNat with h | h | h
      · rw [if_neg (by omega), if_pos h, if_pos h]; rfl
      · rw [if_neg (by omega), if_neg (by omega), if_neg (by omega),
          if_neg (by omega), ih bs]
      · rw [if_pos h, if_neg (by omega), if_pos h]; rfl

theorem lcmp_notgt_trans : ∀ {s t u : List Char},
    lcmp s t ≠ .gt → lcmp t u ≠ .gt → lcmp s u ≠ .gt := by
  intro s
  induction s with
  | nil =>
    intro t u _ _
    cases u <;> simp [lcmp]
  | cons a as ih =>
    intro t u h1 h2
    cases t with
    | nil => simp [lcmp] at h1
    | cons b bs =>
      cases u with
      | nil => simp [lcmp] at h2
      | cons c us =>
        simp only [lcmp] at h1 h2 ⊢
        rcases Nat.lt_trichotomy a.toNat b.toNat with hab | hab | hab
        · rcases Nat.lt_trichotomy b.toNat c.toNat with hbc | hbc | hbc
          · rw [if_pos (by omega)]; simp
          · rw [if_pos (by omega)]; simp
          · rw [if_neg (by omega), if_pos hbc] at h2; simp at h2
        · rcases Nat.lt_trichotomy b.toNat c.toNat with hbc | hbc | hbc
          · rw [if_pos (by omega)]; simp
          · rw [if_neg (by omega), if_neg (by omega)]
            rw [if_neg (by omega), if_neg (by omega)] at h1
            rw [if_neg (by omega), if_neg (by omega)] at h2
            exact ih h1 h2
          · rw [if_neg (by omega), if_pos hbc] at h2; simp at h2
        · rw [if_neg (by omega), if_pos hab] at h1; simp at h1

theorem lcmpInt_nonpos {s t : List Char} : lcmpInt s t ≤ 0 ↔ lcmp s t ≠ .gt := by
  unfold lcmpInt
  cases h : lcmp s t <;> simp

theorem gcmp_trans {a b c : JVal} (h1 : gcmp a b ≤ 0) (h2 : gcmp b c ≤ 0) :
    gcmp a c ≤ 0 := by
  unfold gcmp at *
  rw [lcmpInt_nonpos] at *
  exact lcmp_notgt_trans h2 h1

theorem gcmp_total (a b : JVal) : gcmp a b ≤ 0 ∨ gcmp b a ≤ 0 := by
  unfold gcmp
  rw [lcmpInt_nonpos, lcmpInt_nonpos]
  by_cases h : lcmp (dkey b) (dkey a) = .gt
  · right
    rw [lcmp_swap, h]
    decide
  · exact Or.inl h

/-! Lemmas about first-occurrence replacement. -/

theorem getSubst_noDollar (matched before after : List Char) :
    ∀ {rep : List Char}, noDollar rep = true →
      getSubst matched before after rep = rep := by
  intro rep
  induction rep with
  | nil => intro _; rfl
  | cons c rest ih =>
    intro h
    simp only [noDollar, List.all_cons, Bool.and_eq_true] at h
    have hc : ¬(c = dollarC) := by
      intro hcd
      rw [hcd] at h
      simp at h
    have hrest : noDollar rest = true := h.2
    cases rest with
    | nil => rfl
    | cons d rest2 =>
      simp only [getSubst, if_neg hc]
      rw [ih hrest]

theorem isPrefixOf_self_append (l t : List Char) :
    List.isPrefixOf l (l ++ t) = true := by
  induction l with
  | nil => simp [List.isPrefixOf]
  | cons c cs ih => simp [List.isPrefixOf, ih]

theorem noEarly_head {c : Char} {pre pat suf : List Char}
    (h : noEarlyOccurB (c :: pre) pat suf = true) :
    List.isPrefixOf pat (c :: pre ++ pat ++ suf) = false := by
  simp only [noEarlyOccurB, List.all_eq_true, List.mem_range] at h
  have := h 0 (by simp)
  simpa using this

theorem noEarly_tail {c : Char} {pre pat suf : List Char}
    (h : noEarlyOccurB (c :: pre) pat suf = true) :
    noEarlyOccurB pre pat suf = true := by
  simp only [noEarlyOccurB, List.all_eq_true, List.mem_range] at h ⊢
  intro i hi
  have := h (i + 1) (by simpa using Nat.succ_lt_succ hi)
  simpa using this

theorem replFirstFrom_here (pat rep acc : List Char) :
    ∀ (s : List Char), List.isPrefixOf pat s = true →
      replFirstFrom pat rep acc s =
        acc ++ getSubst pat acc (List.drop pat.length s) rep ++
          List.drop pat.length s := by
  intro s h
  cases s with
  | nil => simp [replFirstFrom, h]
  | cons c rest => simp [replFirstFrom, h]

theorem replFirstFrom_step (pat rep acc : List Char) (c : Char) (rest : List Char)
    (h : List.isPrefixOf pat (c :: rest) = false) :
    replFirstFrom pat rep acc (c :: rest) = replFirstFrom pat rep (acc ++ [c]) rest := by
  simp [replFirstFrom, h]

theorem replFirstFrom_spec (pat rep : List Char) :
    ∀ (pre acc suf : List Char), noEarlyOccurB pre pat suf = true →
      replFirstFrom pat rep acc (pre ++ pat ++ suf) =
        acc ++ pre ++ getSubst pat (acc ++ pre) suf rep ++ suf := by
  intro pre
  induction pre with
  | nil =>
    intro acc suf _
    simp only [List.nil_append]
    rw [replFirstFrom_here pat rep acc (pat ++ suf) (isPrefixOf_self_append pat suf),
      List.drop_left]
    simp
  | cons c cs ih =>
    intro acc suf h
    have hhead := noEarly_head h
    have htail := noEarly_tail h
    have hh : List.isPrefixOf pat (c :: (cs ++ pat ++ suf)) = false := by
      simpa only [List.cons_append, List.append_assoc] using hhead
    have hform : (c :: cs) ++ pat ++ suf = c :: (cs ++ pat ++ suf) := by simp
    rw [hform, replFirstFrom_step pat rep acc c (cs ++ pat ++ suf) hh,
      ih (acc ++ [c]) suf htail]
    simp

theorem replFirst_spec {pre pat suf rep : List Char}
    (h : noEarlyOccurB pre pat suf = true) (hd : noDollar rep = true) :
    replFirst (pre ++ pat ++ suf) pat rep = pre ++ rep ++ suf := by
  unfold replFirst
  rw [replFirstFrom_spec pat rep pre [] suf h]
  simp [getSubst_noDollar _ _ _ hd]

theorem noOccur_nil {pat : List Char} (h : noOccurB pat [] = true) :
    List.isPrefixOf pat [] = false := by
  simp only [noOccurB, List.all_eq_true, List.mem_range] at h
  have h0 := h 0 (by simp)
  simpa using h0

theorem noOccur_head {pat : List Char} {c : Char} {rest : List Char}
    (h : noOccurB pat (c :: rest) = true) :
    List.isPrefixOf pat (c :: rest) = false := by
  simp only [noOccurB, List.all_eq_true, List.mem_range] at h
  have h0 := h 0 (by simp)
  simpa using h0

theorem noOccur_tail {pat : List Char} {c : Char} {rest : List Char}
    (h : noOccurB pat (c :: rest) = true) : noOccurB pat rest = true := by
  simp only [noOccurB, List.all_eq_true, List.mem_range] at h ⊢
  intro i hi
  have hs := h (i + 1) (by simp only [List.length_cons]; omega)
  simpa using hs

theorem replFirstFrom_no_match (pat rep : List Char) :
    ∀ (s acc : List Char), noOccurB pat s = true →
      replFirstFrom pat rep acc s = acc ++ s := by
  intro s
  induction s with
  | nil =>
    intro acc h
    simp [replFirstFrom, noOccur_nil h]
  | cons c rest ih =>
    intro acc h
    have hh := noOccur_head h
    simp only [replFirstFrom, hh, Bool.false_eq_true, if_false]
    rw [ih (acc ++ [c]) (noOccur_tail h)]
    simp

theorem replFirst_no_occur {pat s rep : List Char} (h : noOccurB pat s = true) :
    replFirst s pat rep = s := by
  unfold replFirst
  rw [replFirstFrom_no_match pat rep s [] h]
  simp

/-! Lemmas about the stable insertion sort. -/

theorem insertP_perm {α : Type} (g : α → α → Int) (x : α) (l : List α) :
    List.Perm (insertP g x l) (x :: l) := by
  induction l with
  | nil => exact List.Perm.refl _
  | cons y ys ih =>
    unfold insertP
    by_cases h : g x y ≤ 0
    · rw [if_pos h]
    · rw [if_neg h]
      exact (ih.cons y).trans (List.Perm.swap x y ys)

theorem sortP_perm {α : Type} (g : α → α → Int) (l : List α) :
    List.Perm (sortP g l) l := by
  induction l with
  | nil => exact List.Perm.refl _
  | cons x xs ih => exact (insertP_perm g x (sortP g xs)).trans (ih.cons x)

theorem pairwise_insertP {α : Type} (g : α → α → Int)
    (htr : ∀ a b c, g a b ≤ 0 → g b c ≤ 0 → g a c ≤ 0)
    (hto : ∀ a b, g a b ≤ 0 ∨ g b a ≤ 0)
    (x : α) (l : List α) (hl : l.Pairwise (fun a b => g a b ≤ 0)) :
    (insertP g x l).Pairwise (fun a b => g a b ≤ 0) := by
  induction l with
  | nil => simp [insertP]
  | cons y ys ih =>
    rcases List.pairwise_cons.1 hl with ⟨hy, hys⟩
    unfold insertP
    by_cases h : g x y ≤ 0
    · rw [if_pos h]
      refine List.pairwise_cons.2 ⟨?_, hl⟩
      intro z hz
      rcases List.mem_cons.1 hz with rfl | hz'
      · exact h
      · exact htr x y z h (hy z hz')
    · rw [if_neg h]
      refine List.pairwise_cons.2 ⟨?_, ih hys⟩
      intro z hz
      have hmem := (insertP_perm g x ys).mem_iff.1 hz
      rcases List.mem_cons.1 hmem with rfl | hz'
      · rcases hto z y with hzy | hyz
        · exact absurd hzy h
        · exact hyz
      · exact hy z hz'

theorem pairwise_sortP {α : Type} (g : α → α → Int)
    (htr : ∀ a b c, g a b ≤ 0 → g b c ≤ 0 → g a c ≤ 0)
    (hto : ∀ a b, g a b ≤ 0 ∨ g b a ≤ 0)
    (l : List α) : (sortP g l).Pairwise (fun a b => g a b ≤ 0) := by
  induction l with
  | nil => simp [sortP]
  | cons x xs ih => exact pairwise_insertP g htr hto x (sortP g xs) ih

theorem insertE_ok {α : Type} (cmp : α → α → Except JSError Int) (g : α → α → Int)
    (x : α) (l : List α) (h : ∀ y ∈ l, cmp x y = .ok (g x y)) :
    insertE cmp x l = .ok (insertP g x l) := by
  induction l with
  | nil => rfl
  | cons y ys ih =>
    have hy := h y (List.mem_cons_self y ys)
    simp only [insertE, insertP, hy]
    by_cases hc : g x y ≤ 0
    · rw [if_pos hc, if_pos hc]
    · rw [if_neg hc, if_neg hc, ih (fun z hz => h z (List.mem_cons_of_mem y hz))]

theorem sortE_ok {α : Type} (cmp : α → α → Except JSError Int) (g : α → α → Int)
    (l : List α) (h : ∀ a ∈ l, ∀ b ∈ l, cmp a b = .ok (g a b)) :
    sortE cmp l = .ok (sortP g l) := by
  induction l with
  | nil => rfl
  | cons x xs ih =>
    have hxs : sortE cmp xs = .ok (sortP g xs) :=
      ih (fun a ha b hb =>
        h a (List.mem_cons_of_mem x ha) b (List.mem_cons_of_mem x hb))
    simp only [sortE, hxs]
    exact insertE_ok cmp g x (sortP g xs) (fun y hy =>
      h x (List.mem_cons_self x xs) y
        (List.mem_cons_of_mem x ((sortP_perm g xs).mem_iff.1 hy)))

theorem insertE_length {α : Type} {cmp : α → α → Except JSError Int} {x : α}
    {l m : List α} (h : insertE cmp x l = .ok m) : m.length = l.length + 1 := by
  induction l generalizing m with
  | nil =>
    simp only [insertE] at h
    cases h
    rfl
  | cons y ys ih =>
    simp only [insertE] at h
    cases hc : cmp x y with
    | error e => rw [hc] at h; cases h
    | ok c =>
      rw [hc] at h
      dsimp only at h
      by_cases hle : c ≤ 0
      · rw [if_pos hle] at h
        cases h
        rfl
      · rw [if_neg hle] at h
        cases hr : insertE cmp x ys with
        | error e => rw [hr] at h; cases h
        | ok r =>
          rw [hr] at h
          cases h
          simp [ih hr]

theorem sortE_length {α : Type} {cmp : α → α → Except JSError Int}
    {l m : List α} (h : sortE cmp l = .ok m) : m.length = l.length := by
  induction l generalizing m with
  | nil =>
    simp only [sortE] at h
    cases h
    rfl
  | cons x xs ih =>
    simp only [sortE] at h
    cases hs : sortE cmp xs with
    | error e => rw [hs] at h; cases h
    | ok s =>
      rw [hs] at h
      have := insertE_length h
      simp [this, ih hs]

theorem sortE_err {α : Type} (cmp : α → α → Except JSError Int) (bad : α)
    (hb1 : ∀ y, ∃ e, cmp bad y = .error e) (hb2 : ∀ x, ∃ e, cmp x bad = .error e) :
    ∀ l, bad ∈ l → 2 ≤ l.length → ∃ e, sortE cmp l = .error e := by
  intro l
  induction l with
  | nil => simp
  | cons x xs ih =>
    intro hmem hlen
    cases hsx : sortE cmp xs with
    | error e => exact ⟨e, by simp [sortE, hsx]⟩
    | ok s =>
      have hslen : s.length = xs.length := sortE_length hsx
      rcases List.mem_cons.1 hmem with rfl | hmem'
      · have hpos : 1 ≤ s.length := by
          simp only [List.length_cons] at hlen
          omega
        cases s with
        | nil => simp at hpos
        | cons y ys =>
          rcases hb1 y with ⟨e, he⟩
          exact ⟨e, by simp [sortE, hsx, insertE, he]⟩
      · by_cases h2 : 2 ≤ xs.length
        · rcases ih hmem' h2 with ⟨e, he⟩
          rw [hsx] at he
          cases he
        · have hone : xs.length = 1 := by
            have := List.length_pos.2 (List.ne_nil_of_mem hmem')
            omega
          obtain ⟨z, rfl⟩ : ∃ z, xs = [z] := by
            cases xs with
            | nil => simp at hone
            | cons a as =>
              cases as with
              | nil => exact ⟨a, rfl⟩
              | cons b bs => simp at hone
          have hz : bad = z := by
            simpa using hmem'
          subst hz
          have hs : s = [bad] := by
            have heval : sortE cmp [bad] = .ok [bad] := rfl
            rw [heval] at hsx
            cases hsx
            rfl
          subst hs
          rcases hb2 x with ⟨e, he⟩
          exact ⟨e, by simp [sortE, hsx, insertE, he]⟩

/-! The bridge between the throwing comparator and its pure counterpart. -/

theorem jsGetProp_of_ne_null {v : JVal} (h : v ≠ JVal.null) (k : List Char) :
    jsGetProp v k = .ok (pureProp v k) := by
  cases v with
  | null => exact absurd rfl h
  | bool b => rfl
  | num n => rfl
  | str s => rfl
  | arr xs => rfl
  | obj fs => rfl

theorem goodPost_ne_null {v : JVal} (h : goodPost v = true) : v ≠ JVal.null := by
  intro hv
  subst hv
  simp [goodPost] at h

theorem goodPost_recv {v : JVal} (h : goodPost v = true) :
    jsOrEmpty (pureProp v dateKey) = .str (dkey v) := by
  unfold goodPost at h
  rw [Bool.and_eq_true] at h
  unfold dkey
  cases hw : jsOrEmpty (pureProp v dateKey) with
  | str s => rfl
  | null => rw [hw] at h; simp at h
  | bool b => rw [hw] at h; simp at h
  | num n => rw [hw] at h; simp at h
  | arr xs => rw [hw] at h; simp at h
  | obj fs => rw [hw] at h; simp at h

theorem good_jsComparator {a b : JVal} (ha : goodPost a = true)
    (hb : goodPost b = true) : jsComparator a b = .ok (gcmp a b) := by
  unfold jsComparator
  rw [jsGetProp_of_ne_null (goodPost_ne_null hb) dateKey]
  dsimp only
  rw [goodPost_recv hb]
  dsimp only
  rw [jsGetProp_of_ne_null (goodPost_ne_null ha) dateKey]
  dsimp only
  rw [goodPost_recv ha]
  rfl

theorem jsComparator_null_right (a : JVal) :
    ∃ e, jsComparator a JVal.null = .error e :=
  ⟨.typeError (s2l "Cannot read properties of null"), rfl⟩

theorem jsComparator_null_left (b : JVal) :
    ∃ e, jsComparator JVal.null b = .error e := by
  unfold jsComparator
  cases hb : jsGetProp b dateKey with
  | error e => exact ⟨e, rfl⟩
  | ok db =>
    dsimp only
    cases hw : jsOrEmpty db with
    | str s => exact ⟨.typeError (s2l "Cannot read properties of null"), rfl⟩
    | null => exact ⟨.typeError (s2l "localeCompare is not a function"), rfl⟩
    | bool b' => exact ⟨.typeError (s2l "localeCompare is not a function"), rfl⟩
    | num n => exact ⟨.typeError (s2l "localeCompare is not a function"), rfl⟩
    | arr xs => exact ⟨.typeError (s2l "localeCompare is not a function"), rfl⟩
    | obj fs => exact ⟨.typeError (s2l "localeCompare is not a function"), rfl⟩

/-- When every successfully parsed post is comparator-safe, the sort cannot
throw and `readPosts` returns the pure stable insertion sort of the parsed
posts. -/
theorem readPosts_ok (fsys : FS)
    (hg : ∀ v ∈ parsedPosts fsys, goodPost v = true) :
    (readPosts fsys).1 = .ok (sortP gcmp (parsedPosts fsys)) := by
  unfold readPosts
  cases hp : fsys.posts with
  | none =>
    have : parsedPosts fsys = [] := by
      unfold parsedPosts jsonFiles
      rw [hp]
      rfl
    rw [this]
    rfl
  | some files =>
    exact sortE_ok jsComparator gcmp (parsedPosts fsys)
      (fun a hamem b hbmem => good_jsComparator (hg a hamem) (hg b hbmem))

/-! Helper lemmas about the build orchestration. -/

theorem originPagesD_fields (fsys : FS) (oh : Option (List Char)) (d : Dist)
    (hr : d.rippleHtml = none) (hc : d.cleanHtml = none) :
    (originPagesD fsys oh d).indexHtml = d.indexHtml ∧
    (originPagesD fsys oh d).blogHtml = d.blogHtml ∧
    (originPagesD fsys oh d).rippleHtml =
      fsys.rippleTpl.map (fun t => injectOrigin t oh) ∧
    (originPagesD fsys oh d).cleanHtml =
      fsys.cleanTpl.map (fun t => injectOrigin t oh) := by
  unfold originPagesD
  cases fsys.rippleTpl <;> cases fsys.cleanTpl <;> simp [hr, hc]

theorem addStaticD_fields (fsys : FS) (d : Dist) :
    (addStaticD fsys d).indexHtml = d.indexHtml ∧
    (addStaticD fsys d).blogHtml = d.blogHtml ∧
    (addStaticD fsys d).rippleHtml = d.rippleHtml ∧
    (addStaticD fsys d).cleanHtml = d.cleanHtml := by
  unfold addStaticD
  cases fsys.assets <;> cases fsys.cname <;> simp

theorem build_completes (fsys : FS) (d : Dist) (oh : Option (List Char))
    (ent bt html : List Char)
    (ho : buildOriginHTML fsys = .ok oh) (he : fsys.entryTpl = some ent)
    (hb : fsys.blogTpl = some bt) (hi : (injectData fsys bt).1 = .ok html) :
    ∃ dist, build fsys d = .completed dist ∧ dist.indexHtml = some ent ∧
      dist.blogHtml = some html ∧
      dist.rippleHtml = fsys.rippleTpl.map (fun t => injectOrigin t oh) ∧
      dist.cleanHtml = fsys.cleanTpl.map (fun t => injectOrigin t oh) := by
  have hstep : build fsys d = .completed (addStaticD fsys
      { originPagesD fsys oh { emptyDist with indexHtml := some ent } with
          blogHtml := some html }) := by
    unfold build
    rw [ho]
    dsimp only
    rw [he]
    dsimp only
    rw [hb]
    dsimp only
    rw [hi]
  rcases addStaticD_fields fsys
      { originPagesD fsys oh { emptyDist with indexHtml := some ent } with
          blogHtml := some html } with ⟨f1, f2, f3, f4⟩
  rcases originPagesD_fields fsys oh { emptyDist with indexHtml := some ent }
      rfl rfl with ⟨g1, g2, g3, g4⟩
  refine ⟨_, hstep, ?_, ?_, ?_, ?_⟩
  · rw [f1]
    exact g1
  · rw [f2]
  · rw [f3]
    exact g3
  · rw [f4]
    exact g4

theorem build_blog_throws (fsys : FS) (d : Dist) (oh : Option (List Char))
    (ent bt : List Char) (e : JSError)
    (ho : buildOriginHTML fsys = .ok oh) (he : fsys.entryTpl = some ent)
    (hb : fsys.blogTpl = some bt) (hi : (injectData fsys bt).1 = .error e) :
    build fsys d = .threw e
      (originPagesD fsys oh { emptyDist with indexHtml := some ent }) := by
  unfold build
  rw [ho]
  dsimp only
  rw [he]
  dsimp only
  rw [hb]
  dsimp only
  rw [hi]

theorem injectData_warnings (fsys : FS) (html : List Char) :
    (injectData fsys html).2 = (readPosts fsys).2 := by
  unfold injectData
  rcases hrp : readPosts fsys with ⟨fst, w⟩
  cases fst with
  | error e => rfl
  | ok posts =>
    dsimp only
    cases contactEmailE (readJSON fsys.siteJson (JVal.obj [])) <;> rfl

/-! Concrete fixtures used by the examples and witnesses. -/

/-- A post object holding only the given date string. -/
def datedPost (d : String) : JVal := JVal.obj [(dateKey, JVal.str (s2l d))]

/-- The filesystem with none of the inputs present (the posts directory does
not exist). -/
def fsBare : FS :=
  { posts := none, unlinkedJson := none, aboutJson := none, siteJson := none,
    originJson := none, entryTpl := none, rippleTpl := none, cleanTpl := none,
    blogTpl := none, assets := none, cname := none }

/-- The two-post example of the specification: one file dated 2024-01-01 and
one dated 2024-06-01. -/
def fsTwoPosts : FS :=
  { fsBare with posts := some [(s2l "a.json", Except.ok (datedPost "2024-01-01")), (s2l "b.json", Except.ok (datedPost "2024-06-01"))] }

/-! The claims. -/

/-- C1: for every collection of successfully parsed post files (conventional
posts: non-null, date a string or absent), `readPosts` returns them — a
permutation of the parsed posts — sorted descending by string comparison of
the date field, missing dates treated as the empty string: any post `a`
before a post `b` in the result has `dkey b ≤ dkey a` lexicographically. In
particular, on two post files dated 2024-01-01 and 2024-06-01 the 2024-06-01
entry comes first. -/
theorem readPosts_sorted_desc (fsys : FS)
    (hg : ∀ v ∈ parsedPosts fsys, goodPost v = true) :
    (∃ out, (readPosts fsys).1 = .ok out ∧
      out.Pairwise (fun a b => lcmp (dkey b) (dkey a) ≠ Ordering.gt) ∧
      List.Perm out (parsedPosts fsys)) ∧
    (readPosts fsTwoPosts).1 =
      .ok [datedPost "2024-06-01", datedPost "2024-01-01"] := by
  constructor
  · refine ⟨sortP gcmp (parsedPosts fsys), readPosts_ok fsys hg, ?_,
      sortP_perm gcmp (parsedPosts fsys)⟩
    have hp := pairwise_sortP gcmp (fun _ _ _ => gcmp_trans) gcmp_total
      (parsedPosts fsys)
    exact hp.imp (fun h => lcmpInt_nonpos.1 h)
  · rfl

/-- Witness for C1 at the concrete two-post filesystem. -/
theorem readPosts_sorted_desc_witness :
    (∀ v ∈ parsedPosts fsTwoPosts, goodPost v = true) ∧
    ((∃ out, (readPosts fsTwoPosts).1 = .ok out ∧
      out.Pairwise (fun a b => lcmp (dkey b) (dkey a) ≠ Ordering.gt) ∧
      List.Perm out (parsedPosts fsTwoPosts)) ∧
     (readPosts fsTwoPosts).1 =
       .ok [datedPost "2024-06-01", datedPost "2024-01-01"]) :=
  ⟨by decide, readPosts_sorted_desc fsTwoPosts (by decide)⟩

/-- C6: the build is deterministic in the input files and carries no state
from one run to the next: its outcome does not depend on the output tree a
previous run left on disk (the output directory is cleaned first), so
running it twice on unchanged inputs — the second run starting from the
first run's output — reproduces the same outcome byte for byte. -/
theorem build_deterministic :
    (∀ fsys d d', build fsys d = build fsys d') ∧
    (∀ fsys d, build fsys (distOf (build fsys d)) = build fsys d) :=
  ⟨fun _ _ _ => rfl, fun _ _ => rfl⟩

/-- C7: `readJSON` returns the parsed content of the file, or the fallback
when the file is absent or fails to parse, surfacing no error; `injectData`
never emits warnings beyond those of `readPosts` (so missing config files
are silent), and with the unlinked list, about object and site config all
missing it substitutes the serialized defaults — the empty list, the
bilingual empty-string object, and the empty contact email — instead of
failing. -/
theorem readJSON_fallback_defaults :
    (∀ fb, readJSON none fb = fb) ∧
    (∀ e fb, readJSON (some (.error e)) fb = fb) ∧
    (∀ v fb, readJSON (some (.ok v)) fb = v) ∧
    (∀ fsys html, (injectData fsys html).2 = (readPosts fsys).2) ∧
    (∀ fsys html ps, fsys.unlinkedJson = none → fsys.aboutJson = none →
      fsys.siteJson = none → (readPosts fsys).1 = .ok ps →
      (injectData fsys html).1 = .ok (replFirst (replFirst (replFirst
        (replFirst html tokPosts (jsonStringify (JVal.arr ps)))
        tokUnlinked (jsonStringify (JVal.arr [])))
        tokAbout (jsonStringify aboutDefault))
        tokEmail [])) := by
  refine ⟨fun _ => rfl, fun _ _ => rfl, fun _ _ => rfl, injectData_warnings, ?_⟩
  intro fsys html ps hu ha hs hps
  rcases hrp : readPosts fsys with ⟨fst, w⟩
  rw [hrp] at hps
  simp only at hps
  subst hps
  unfold injectData
  rw [hrp]
  dsimp only
  rw [hu, ha, hs]
  rfl

/-- Witness for C7 at the bare filesystem. -/
theorem readJSON_fallback_defaults_witness :
    (injectData fsBare (s2l "h")).1 = .ok (replFirst (replFirst (replFirst
      (replFirst (s2l "h") tokPosts (jsonStringify (JVal.arr [])))
      tokUnlinked (jsonStringify (JVal.arr [])))
      tokAbout (jsonStringify aboutDefault))
      tokEmail []) :=
  readJSON_fallback_defaults.2.2.2.2 fsBare (s2l "h") [] rfl rfl rfl rfl

/-- C8: when the posts directory does not exist, `readPosts` returns the
empty collection with no warning and no failure. -/
theorem readPosts_missing_dir (fsys : FS) (h : fsys.posts = none) :
    readPosts fsys = (.ok [], []) := by
  unfold readPosts
  rw [h]

/-- Witness for C8 at the bare filesystem. -/
theorem readPosts_missing_dir_witness :
    fsBare.posts = none ∧ readPosts fsBare = (Except.ok [], []) :=
  ⟨rfl, readPosts_missing_dir fsBare rfl⟩

/-- Two parsed `.json` posts, the second being JSON null; entry and blog
templates present, so the throw surfaces during the blog step. -/
def fsNullPost : FS :=
  { fsBare with posts := some [(s2l "a.json", Except.ok (datedPost "2024-01-01")), (s2l "b.json", Except.ok JVal.null)], entryTpl := some (s2l "<html>"), blogTpl := some (s2l "blog") }

/-- C9: when at least two post files parse successfully and one of them
parses to JSON null, the sort comparator throws an uncaught TypeError —
`readPosts` yields an error instead of a collection — and, when the build
reaches the blog step, the whole build aborts (exit code 1) rather than
passing the null through or skipping it with a warning. -/
theorem readPosts_null_post_throws (fsys : FS) (d : Dist)
    (hnull : JVal.null ∈ parsedPosts fsys)
    (hlen : 2 ≤ (parsedPosts fsys).length) :
    (∃ msg, (readPosts fsys).1 = .error (.typeError msg)) ∧
    (∀ ent bt oh, fsys.entryTpl = some ent → fsys.blogTpl = some bt →
      buildOriginHTML fsys = .ok oh →
      ∃ e d', build fsys d = .threw e d' ∧ exitCode (build fsys d) = 1) := by
  rcases sortE_err jsComparator JVal.null jsComparator_null_left
      jsComparator_null_right (parsedPosts fsys) hnull hlen with ⟨e, he⟩
  have hposts : (readPosts fsys).1 = .error e := by
    unfold readPosts
    cases hp : fsys.posts with
    | none =>
      exfalso
      have hempty : parsedPosts fsys = [] := by
        unfold parsedPosts jsonFiles
        rw [hp]
        rfl
      rw [hempty] at hnull
      simp at hnull
    | some files =>
      dsimp only
      exact he
  constructor
  · cases e with
    | typeError msg => exact ⟨msg, hposts⟩
  · intro ent bt oh hent hblog ho
    have hid : (injectData fsys bt).1 = .error e := by
      unfold injectData
      rcases hrp : readPosts fsys with ⟨fst, w⟩
      rw [hrp] at hposts
      simp only at hposts
      subst hposts
      rfl
    have hb := build_blog_throws fsys d oh ent bt e ho hent hblog hid
    exact ⟨e, _, hb, by rw [hb]; rfl⟩

/-- Witness for C9 at the concrete null-post filesystem. -/
theorem readPosts_null_post_throws_witness :
    (JVal.null ∈ parsedPosts fsNullPost) ∧
    (∃ msg, (readPosts fsNullPost).1 = .error (.typeError msg)) ∧
    (∃ e d', build fsNullPost emptyDist = .threw e d' ∧
      exitCode (build fsNullPost emptyDist) = 1) := by
  have hp : parsedPosts fsNullPost = [datedPost "2024-01-01", JVal.null] := rfl
  have hmem : JVal.null ∈ parsedPosts fsNullPost := by
    rw [hp]
    exact List.mem_cons_of_mem _ (List.mem_cons_self _ _)
  have hlen : 2 ≤ (parsedPosts fsNullPost).length := by
    rw [hp]
    decide
  have h := readPosts_null_post_throws fsNullPost emptyDist hmem hlen
  exact ⟨hmem, h.1, h.2 (s2l "<html>") (s2l "blog") none rfl rfl rfl⟩

/-- An origin file parsing to a truthy object with no `body` member. -/
def fsNoBodyOrigin : FS :=
  { fsBare with originJson := some (.ok (JVal.obj [(s2l "title", JVal.str (s2l "x"))])) }

/-- C10: when `origin.json` parses to a truthy value whose `body` member is
undefined (for example the object holding only a title) or null,
`buildOriginHTML` throws an uncaught TypeError at `origin.body.en` and the
build aborts immediately — before writing anything — instead of falling
back to the null no-origin-content result. -/
theorem buildOriginHTML_missing_body_throws (fsys : FS) (origin : JVal) (d : Dist)
    (h1 : fsys.originJson = some (.ok origin))
    (h2 : truthy origin = true)
    (h3 : jsGetProp origin bodyKey = .ok none ∨
      jsGetProp origin bodyKey = .ok (some JVal.null)) :
    ∃ msg, buildOriginHTML fsys = .error (.typeError msg) ∧
      build fsys d = .threw (.typeError msg) emptyDist ∧
      exitCode (build fsys d) = 1 := by
  have horg : readJSON fsys.originJson JVal.null = origin := by rw [h1]; rfl
  have hbo : ∃ msg, buildOriginHTML fsys = .error (.typeError msg) := by
    rcases h3 with h3 | h3
    · refine ⟨s2l "Cannot read properties of undefined", ?_⟩
      unfold buildOriginHTML
      simp only [horg, h2, if_true, h3]
    · refine ⟨s2l "Cannot read properties of null", ?_⟩
      unfold buildOriginHTML
      simp only [horg, h2, if_true, h3]
      rfl
  rcases hbo with ⟨msg, hmsg⟩
  have hb : build fsys d = .threw (.typeError msg) emptyDist := by
    unfold build
    rw [hmsg]
  exact ⟨msg, hmsg, hb, by rw [hb]; rfl⟩

/-- Witness for C10 at the concrete no-body origin filesystem. -/
theorem buildOriginHTML_missing_body_throws_witness :
    ∃ msg, buildOriginHTML fsNoBodyOrigin = .error (.typeError msg) ∧
      build fsNoBodyOrigin emptyDist = .threw (.typeError msg) emptyDist ∧
      exitCode (build fsNoBodyOrigin emptyDist) = 1 :=
  buildOriginHTML_missing_body_throws fsNoBodyOrigin
    (JVal.obj [(s2l "title", JVal.str (s2l "x"))]) emptyDist rfl rfl (Or.inl rfl)

/-- Entry template present but origin content malformed (truthy, no body):
the build still terminates with a non-zero exit code. -/
def fsC3 : FS :=
  { fsBare with entryTpl := some (s2l "<html>"), originJson := some (.ok (JVal.obj [(s2l "title", JVal.str (s2l "x"))])) }

/-- C3 counterexample: a run whose entry template is present and that still
terminates with a non-zero exit code (the origin TypeError aborts the
process), refuting that a missing entry template is the only condition
ending the process with a non-zero code. -/
theorem build_nonzero_exit_counterexample :
    fsC3.entryTpl ≠ none ∧ exitCode (build fsC3 emptyDist) = 1 := by
  constructor
  · decide
  · rfl

/-- C3 amended: if the entry template is absent the build terminates with a
non-zero exit code and no index.html is produced; a missing entry template
is the only condition reaching the explicit `process.exit` with a non-zero
code — but uncaught TypeErrors from malformed content (null posts, origin
without body) also terminate the process with a non-zero exit code. -/
theorem build_entry_missing_exit :
    (∀ fsys d, fsys.entryTpl = none →
      exitCode (build fsys d) ≠ 0 ∧ (distOf (build fsys d)).indexHtml = none) ∧
    (∀ fsys d code dist, build fsys d = .exited code dist →
      code = 1 ∧ fsys.entryTpl = none) := by
  constructor
  · intro fsys d hent
    cases ho : buildOriginHTML fsys with
    | error e =>
      have hb : build fsys d = .threw e emptyDist := by
        unfold build
        rw [ho]
      rw [hb]
      exact ⟨one_ne_zero, rfl⟩
    | ok oh =>
      have hb : build fsys d = .exited 1 emptyDist := by
        unfold build
        rw [ho]
        dsimp only
        rw [hent]
      rw [hb]
      exact ⟨one_ne_zero, rfl⟩
  · intro fsys d code dist hb
    unfold build at hb
    cases ho : buildOriginHTML fsys with
    | error e =>
      rw [ho] at hb
      simp at hb
    | ok oh =>
      rw [ho] at hb
      dsimp only at hb
      cases hent : fsys.entryTpl with
      | none =>
        rw [hent] at hb
        dsimp only at hb
        cases hb
        exact ⟨rfl, rfl⟩
      | some ent =>
        rw [hent] at hb
        dsimp only at hb
        cases hblog : fsys.blogTpl with
        | some t =>
          rw [hblog] at hb
          dsimp only at hb
          cases hinj : (injectData fsys t).1 with
          | error e => rw [hinj] at hb; simp at hb
          | ok html => rw [hinj] at hb; simp at hb
        | none => rw [hblog] at hb; simp at hb

/-- Witness for the amended C3: the bare filesystem has no entry template,
its build exits non-zero, produces no index.html, and its explicit exit has
code 1. -/
theorem build_entry_missing_exit_witness :
    (exitCode (build fsBare emptyDist) ≠ 0 ∧
      (distOf (build fsBare emptyDist)).indexHtml = none) ∧
    (1 = 1 ∧ fsBare.entryTpl = none) :=
  ⟨build_entry_missing_exit.1 fsBare emptyDist rfl,
   build_entry_missing_exit.2 fsBare emptyDist 1 emptyDist rfl⟩

/-- When the post sort succeeds and the contact-email access succeeds,
`injectData` returns the four-fold replacement chain. -/
theorem injectData_ok (fsys : FS) (html : List Char) (ps : List JVal)
    (em : List Char) (hps : (readPosts fsys).1 = .ok ps)
    (hem : contactEmailE (readJSON fsys.siteJson (JVal.obj [])) = .ok em) :
    (injectData fsys html).1 = .ok (replFirst (replFirst (replFirst
      (replFirst html tokPosts (jsonStringify (JVal.arr ps)))
      tokUnlinked (jsonStringify (readJSON fsys.unlinkedJson (JVal.arr []))))
      tokAbout (jsonStringify (readJSON fsys.aboutJson aboutDefault)))
      tokEmail em) := by
  rcases hrp : readPosts fsys with ⟨fst, w⟩
  rw [hrp] at hps
  simp only at hps
  subst hps
  unfold injectData
  rw [hrp]
  dsimp only
  rw [hem]

/-- One good post followed by one malformed `.json` file, with entry and
blog templates present. -/
def fsC4 : FS :=
  { fsBare with posts := some [(s2l "a.json", Except.ok (datedPost "2024-01-01")), (s2l "bad.json", Except.error (s2l "Unexpected token"))], entryTpl := some (s2l "<html>"), blogTpl := some (s2l "B") }

/-- C4: a post file that fails to parse is excluded from the collection, a
warning naming the file and the parse-error message is printed, every other
successfully parsed post is kept, and the build completes, producing the
entry and blog outputs. -/
theorem readPosts_malformed_skipped (fsys : FS) (d : Dist)
    (pre post : List (List Char × Except (List Char) JVal))
    (fname emsg : List Char) (oh : Option (List Char)) (ent bt em : List Char)
    (hposts : fsys.posts = some (pre ++ (fname, Except.error emsg) :: post))
    (hjson : List.isSuffixOf jsonExt fname = true)
    (hg : ∀ v ∈ parsedPosts fsys, goodPost v = true)
    (horigin : buildOriginHTML fsys = .ok oh)
    (hent : fsys.entryTpl = some ent)
    (hblog : fsys.blogTpl = some bt)
    (hem : contactEmailE (readJSON fsys.siteJson (JVal.obj [])) = .ok em) :
    ((warnGlyph ++ fname ++ s2l ": " ++ emsg) ∈ (readPosts fsys).2) ∧
    (∃ out, (readPosts fsys).1 = .ok out ∧ List.Perm out (parsedPosts fsys)) ∧
    (parsedPosts fsys =
      (pre.filter (fun f => List.isSuffixOf jsonExt f.1)).filterMap
        (fun f => okOpt f.2) ++
      (post.filter (fun f => List.isSuffixOf jsonExt f.1)).filterMap
        (fun f => okOpt f.2)) ∧
    (∃ dist, build fsys d = .completed dist ∧ dist.indexHtml = some ent ∧
      dist.blogHtml.isSome = true) := by
  refine ⟨?_, ?_, ?_, ?_⟩
  · have hw : (readPosts fsys).2 = postWarnings fsys := by
      unfold readPosts
      rw [hposts]
    rw [hw]
    unfold postWarnings jsonFiles
    rw [hposts]
    have hgd : (Option.getD (some (pre ++ (fname, Except.error emsg) :: post)) ([] : List (List Char × Except (List Char) JVal))) = pre ++ (fname, Except.error emsg) :: post := rfl
    rw [hgd]
    refine List.mem_filterMap.2 ⟨(fname, Except.error emsg), ?_, rfl⟩
    refine List.mem_filter.2 ⟨?_, hjson⟩
    simp
  · exact ⟨sortP gcmp (parsedPosts fsys), readPosts_ok fsys hg,
      sortP_perm gcmp (parsedPosts fsys)⟩
  · unfold parsedPosts jsonFiles
    rw [hposts]
    have hgd : (Option.getD (some (pre ++ (fname, Except.error emsg) :: post)) ([] : List (List Char × Except (List Char) JVal))) = pre ++ (fname, Except.error emsg) :: post := rfl
    rw [hgd]
    simp [List.filter_append, List.filter_cons, List.filterMap_append,
      List.filterMap_cons, hjson, okOpt]
  · rcases build_completes fsys d oh ent bt _ horigin hent hblog
        (injectData_ok fsys bt (sortP gcmp (parsedPosts fsys)) em
          (readPosts_ok fsys hg) hem) with ⟨dist, hbd, hidx, hblg, _, _⟩
    refine ⟨dist, hbd, hidx, ?_⟩
    rw [hblg]
    rfl

/-- Witness for C4 at the concrete one-good-one-malformed filesystem. -/
theorem readPosts_malformed_skipped_witness :
    ((warnGlyph ++ s2l "bad.json" ++ s2l ": " ++ s2l "Unexpected token") ∈
      (readPosts fsC4).2) ∧
    (∃ out, (readPosts fsC4).1 = .ok out ∧ List.Perm out (parsedPosts fsC4)) ∧
    (parsedPosts fsC4 =
      (([(s2l "a.json", Except.ok (datedPost "2024-01-01"))] :
          List (List Char × Except (List Char) JVal)).filter
        (fun f => List.isSuffixOf jsonExt f.1)).filterMap (fun f => okOpt f.2) ++
      ((([] : List (List Char × Except (List Char) JVal)).filter
        (fun f => List.isSuffixOf jsonExt f.1)).filterMap (fun f => okOpt f.2))) ∧
    (∃ dist, build fsC4 emptyDist = .completed dist ∧
      dist.indexHtml = some (s2l "<html>") ∧ dist.blogHtml.isSome = true) :=
  readPosts_malformed_skipped fsC4 emptyDist
    [(s2l "a.json", Except.ok (datedPost "2024-01-01"))] []
    (s2l "bad.json") (s2l "Unexpected token") none (s2l "<html>") (s2l "B") []
    rfl (by decide) (by decide) rfl rfl rfl rfl

/-- C5 counterexample: `injectOrigin` with the replacement string of two
dollars yields a single dollar — the ECMAScript replacement-pattern
substitution — not the originHTML string itself, refuting the claim that the
placeholder is replaced by originHTML verbatim for every originHTML. -/
theorem injectOrigin_dollar_counterexample :
    injectOrigin originTok (some (s2l "$$")) = s2l "$" ∧ s2l "$" ≠ s2l "$$" :=
  ⟨rfl, by decide⟩

/-- Origin absent; entry, both origin pages and the blog template present. -/
def fsC5 : FS :=
  { fsBare with entryTpl := some (s2l "<e>"), rippleTpl := some (s2l "R"), cleanTpl := some (s2l "C"), blogTpl := some (s2l "B") }

/-- C5 amended: `injectOrigin` with a null (or empty) originHTML returns the
template unchanged — the placeholder remains; with a non-empty originHTML it
replaces the first occurrence of the origin placeholder with originHTML
interpreted as a JS replacement pattern, which is originHTML verbatim
whenever it holds no dollar character; consequently, when origin.json is
absent both origin-consuming pages are still produced with their templates
unchanged (no rendered origin fragment) and the build completes. -/
theorem injectOrigin_spec :
    (∀ html, injectOrigin html none = html) ∧
    (∀ html, injectOrigin html (some []) = html) ∧
    (∀ pre suf o, o ≠ [] → noDollar o = true →
      noEarlyOccurB pre originTok suf = true →
      injectOrigin (pre ++ originTok ++ suf) (some o) = pre ++ o ++ suf) ∧
    (∀ fsys d ent rt ct bt html,
      fsys.originJson = none → fsys.entryTpl = some ent →
      fsys.rippleTpl = some rt → fsys.cleanTpl = some ct →
      fsys.blogTpl = some bt → (injectData fsys bt).1 = .ok html →
      ∃ dist, build fsys d = .completed dist ∧
        dist.rippleHtml = some rt ∧ dist.cleanHtml = some ct) := by
  refine ⟨fun _ => rfl, fun _ => rfl, ?_, ?_⟩
  · intro pre suf o ho hnd hne
    unfold injectOrigin
    have hoe : o.isEmpty = false := by
      cases o with
      | nil => exact absurd rfl ho
      | cons c cs => rfl
    dsimp only
    rw [hoe]
    simp only [Bool.false_eq_true, if_false]
    exact replFirst_spec hne hnd
  · intro fsys d ent rt ct bt html horigin hent hrip hcln hblog hinj
    have ho : buildOriginHTML fsys = .ok none := by
      unfold buildOriginHTML
      rw [horigin]
      rfl
    rcases build_completes fsys d none ent bt html ho hent hblog hinj with
      ⟨dist, hbd, _, _, hr, hc⟩
    refine ⟨dist, hbd, ?_, ?_⟩
    · rw [hr, hrip]
      rfl
    · rw [hc, hcln]
      rfl

/-- Witness for the amended C5: the null case, a concrete replacement, and
the completed build with both origin pages unchanged when origin.json is
absent. -/
theorem injectOrigin_spec_witness :
    (injectOrigin (s2l "x") none = s2l "x") ∧
    (injectOrigin (s2l "p" ++ originTok ++ s2l "s") (some (s2l "o")) =
      s2l "p" ++ s2l "o" ++ s2l "s") ∧
    (∃ dist, build fsC5 emptyDist = .completed dist ∧
      dist.rippleHtml = some (s2l "R") ∧ dist.cleanHtml = some (s2l "C")) :=
  ⟨injectOrigin_spec.1 (s2l "x"),
   injectOrigin_spec.2.2.1 (s2l "p") (s2l "s") (s2l "o") (by decide) (by decide)
     (by decide),
   injectOrigin_spec.2.2.2 fsC5 emptyDist (s2l "<e>") (s2l "R") (s2l "C")
     (s2l "B") (s2l "B") rfl rfl rfl rfl rfl rfl⟩

/-- A site config whose contact email is the two-dollar string. -/
def fsDollarEmail : FS :=
  { fsBare with siteJson := some (.ok (JVal.obj [(emailKey, JVal.str (s2l "$$"))])) }

/-- C2 counterexample: with contact email the two-dollar string, the blog
template consisting of the contact-email placeholder renders as a single
dollar — the ECMAScript replacement-pattern substitution — not as the
contact_email string itself, refuting verbatim replacement for every
config. -/
theorem injectData_subst_counterexample :
    (injectData fsDollarEmail tokEmail).1 = .ok (s2l "$") ∧
    s2l "$" ≠ s2l "$$" :=
  ⟨rfl, by decide⟩

/-- Right-associated form of the first-occurrence replacement property. -/
theorem replFirst_spec2 (pre pat suf rep : List Char)
    (h : noEarlyOccurB pre pat suf = true) (hd : noDollar rep = true) :
    replFirst (pre ++ (pat ++ suf)) pat rep = pre ++ (rep ++ suf) := by
  have hs := replFirst_spec h hd
  simpa [List.append_assoc] using hs

/-- C2 amended: `injectData` performs, in source order, a first-occurrence
replacement of each of the four placeholder tokens by, respectively, the
JSON serialization of the posts, of the unlinked list, of the about object,
and the contact-email string, on every template (whenever the post sort and
the contact-email access succeed). First-occurrence replacement is
characterized on any subject string: the first occurrence of a token is
replaced by the value — verbatim provided the value holds no dollar
character (a dollar triggers the JS replacement-pattern substitution) — and
a token that does not occur leaves the string unchanged. A template carrying
the four tokens once each in the conventional order therefore renders with
all four serialized values spliced in. -/
theorem injectData_replaces_tokens :
    (∀ fsys html ps em, (readPosts fsys).1 = .ok ps →
      contactEmailE (readJSON fsys.siteJson (JVal.obj [])) = .ok em →
      (injectData fsys html).1 = .ok (replFirst (replFirst (replFirst
        (replFirst html tokPosts (jsonStringify (JVal.arr ps)))
        tokUnlinked (jsonStringify (readJSON fsys.unlinkedJson (JVal.arr []))))
        tokAbout (jsonStringify (readJSON fsys.aboutJson aboutDefault)))
        tokEmail em)) ∧
    (∀ pre pat suf rep, noEarlyOccurB pre pat suf = true →
      noDollar rep = true →
      replFirst (pre ++ pat ++ suf) pat rep = pre ++ rep ++ suf) ∧
    (∀ pat s rep, noOccurB pat s = true → replFirst s pat rep = s) ∧
    (∀ (fsys : FS) (a1 a2 a3 a4 a5 em : List Char) (ps : List JVal),
      (readPosts fsys).1 = .ok ps →
      contactEmailE (readJSON fsys.siteJson (JVal.obj [])) = .ok em →
      noDollar (jsonStringify (JVal.arr ps)) = true →
      noDollar (jsonStringify (readJSON fsys.unlinkedJson (JVal.arr []))) = true →
      noDollar (jsonStringify (readJSON fsys.aboutJson aboutDefault)) = true →
      noDollar em = true →
      noEarlyOccurB a1 tokPosts
        (a2 ++ tokUnlinked ++ a3 ++ tokAbout ++ a4 ++ tokEmail ++ a5) = true →
      noEarlyOccurB (a1 ++ jsonStringify (JVal.arr ps) ++ a2) tokUnlinked
        (a3 ++ tokAbout ++ a4 ++ tokEmail ++ a5) = true →
      noEarlyOccurB (a1 ++ jsonStringify (JVal.arr ps) ++ a2 ++
          jsonStringify (readJSON fsys.unlinkedJson (JVal.arr [])) ++ a3) tokAbout
        (a4 ++ tokEmail ++ a5) = true →
      noEarlyOccurB (a1 ++ jsonStringify (JVal.arr ps) ++ a2 ++
          jsonStringify (readJSON fsys.unlinkedJson (JVal.arr [])) ++ a3 ++
          jsonStringify (readJSON fsys.aboutJson aboutDefault) ++ a4) tokEmail
        a5 = true →
      (injectData fsys
        (a1 ++ tokPosts ++ a2 ++ tokUnlinked ++ a3 ++ tokAbout ++ a4 ++
          tokEmail ++ a5)).1
      = .ok (a1 ++ jsonStringify (JVal.arr ps) ++ a2 ++
          jsonStringify (readJSON fsys.unlinkedJson (JVal.arr [])) ++ a3 ++
          jsonStringify (readJSON fsys.aboutJson aboutDefault) ++ a4 ++ em ++
          a5)) := by
  refine ⟨fun fsys html ps em hps hem => injectData_ok fsys html ps em hps hem,
    fun pre pat suf rep h hd => replFirst_spec h hd,
    fun pat s rep h => replFirst_no_occur h, ?_⟩
  intro fsys a1 a2 a3 a4 a5 em ps hps hem hd1 hd2 hd3 hd4 h1 h2 h3 h4
  rw [injectData_ok fsys _ ps em hps hem]
  refine congrArg Except.ok ?_
  set r1 : List Char := jsonStringify (JVal.arr ps) with hr1
  set r2 : List Char := jsonStringify (readJSON fsys.unlinkedJson (JVal.arr [])) with hr2
  set r3 : List Char := jsonStringify (readJSON fsys.aboutJson aboutDefault) with hr3
  have e1 : a1 ++ tokPosts ++ a2 ++ tokUnlinked ++ a3 ++ tokAbout ++ a4 ++
      tokEmail ++ a5 =
      a1 ++ (tokPosts ++ (a2 ++ tokUnlinked ++ a3 ++ tokAbout ++ a4 ++
        tokEmail ++ a5)) := by
    simp [List.append_assoc]
  rw [e1, replFirst_spec2 a1 tokPosts
    (a2 ++ tokUnlinked ++ a3 ++ tokAbout ++ a4 ++ tokEmail ++ a5) r1 h1 hd1]
  have e2 : a1 ++ (r1 ++ (a2 ++ tokUnlinked ++ a3 ++ tokAbout ++ a4 ++
      tokEmail ++ a5)) =
      (a1 ++ r1 ++ a2) ++ (tokUnlinked ++ (a3 ++ tokAbout ++ a4 ++ tokEmail ++
        a5)) := by
    simp [List.append_assoc]
  rw [e2, replFirst_spec2 (a1 ++ r1 ++ a2) tokUnlinked
    (a3 ++ tokAbout ++ a4 ++ tokEmail ++ a5) r2 h2 hd2]
  have e3 : (a1 ++ r1 ++ a2) ++ (r2 ++ (a3 ++ tokAbout ++ a4 ++ tokEmail ++
      a5)) =
      (a1 ++ r1 ++ a2 ++ r2 ++ a3) ++ (tokAbout ++ (a4 ++ tokEmail ++ a5)) := by
    simp [List.append_assoc]
  rw [e3, replFirst_spec2 (a1 ++ r1 ++ a2 ++ r2 ++ a3) tokAbout
    (a4 ++ tokEmail ++ a5) r3 h3 hd3]
  have e4 : (a1 ++ r1 ++ a2 ++ r2 ++ a3) ++ (r3 ++ (a4 ++ tokEmail ++ a5)) =
      (a1 ++ r1 ++ a2 ++ r2 ++ a3 ++ r3 ++ a4) ++ (tokEmail ++ a5) := by
    simp [List.append_assoc]
  rw [e4, replFirst_spec2 (a1 ++ r1 ++ a2 ++ r2 ++ a3 ++ r3 ++ a4) tokEmail
    a5 em h4 hd4]
  simp [List.append_assoc]

/-- A site config with contact email a-at-b-dot-com. -/
def fsAtEmail : FS :=
  { fsBare with siteJson := some (.ok (JVal.obj [(emailKey, JVal.str (s2l "a@b.com"))])) }

/-- Witness for the amended C2: on an arbitrarily shaped template the
injection is the four-fold first-occurrence replacement chain; a token that
does not occur leaves the string unchanged; and a blog template holding all
four tokens once, with contact email a-at-b-dot-com, renders with the
serialized posts, unlinked and about defaults, and the literal email in
place of the placeholders. -/
theorem injectData_replaces_tokens_witness :
    ((injectData fsAtEmail (s2l "plain")).1 = .ok (replFirst (replFirst
      (replFirst (replFirst (s2l "plain") tokPosts
        (jsonStringify (JVal.arr [])))
      tokUnlinked (jsonStringify (readJSON fsAtEmail.unlinkedJson (JVal.arr []))))
      tokAbout (jsonStringify (readJSON fsAtEmail.aboutJson aboutDefault)))
      tokEmail (s2l "a@b.com"))) ∧
    (replFirst (s2l "no tokens here") tokPosts (s2l "X") =
      s2l "no tokens here") ∧
    ((injectData fsAtEmail
      (s2l "A" ++ tokPosts ++ s2l "B" ++ tokUnlinked ++ s2l "C" ++ tokAbout ++
        s2l "D" ++ tokEmail ++ s2l "E")).1
    = .ok (s2l "A" ++ jsonStringify (JVal.arr []) ++ s2l "B" ++
        jsonStringify (readJSON fsAtEmail.unlinkedJson (JVal.arr [])) ++
        s2l "C" ++ jsonStringify (readJSON fsAtEmail.aboutJson aboutDefault) ++
        s2l "D" ++ s2l "a@b.com" ++ s2l "E")) :=
  ⟨injectData_replaces_tokens.1 fsAtEmail (s2l "plain") [] (s2l "a@b.com")
     rfl rfl,
   injectData_replaces_tokens.2.2.1 tokPosts (s2l "no tokens here") (s2l "X")
     (by decide),
   injectData_replaces_tokens.2.2.2 fsAtEmail (s2l "A") (s2l "B") (s2l "C")
     (s2l "D") (s2l "E") (s2l "a@b.com") [] rfl rfl (by decide) (by decide)
     (by decide) (by decide) (by decide) (by decide) (by decide) (by decide)⟩

end WSBI
